import Mathlib

/-!
Verification development for the WorkClock repository.

The clock engine is embedded from the backend implementation of
`process_clock_action` (ClockService) together with the database schema:
the `employees`, `time_entries` and `shifts` tables with their CHECK and
UNIQUE constraints.  Timestamps are modelled as natural numbers, money
amounts (DECIMAL(10,2)) as integers in cents.  A failing database
transaction rolls the whole operation back, which the embedding models by
returning an error carrying no new state.
-/

set_option autoImplicit false

namespace WorkClock

/-- Kind of a clock event: time_entries.type ∈ ('IN', 'OUT'). -/
inductive EntryType
  | IN
  | OUT
deriving DecidableEq, Repr

/-- The opposite event kind; IN alternates with OUT. -/
def flipKind : EntryType → EntryType
  | .IN => .OUT
  | .OUT => .IN

/-- Row of the employees table: id, name, job_role, daily_rate
(DECIMAL, CHECK daily_rate >= 0), clock_code (4 digits), is_active,
created_at. -/
structure Employee where
  id : Nat
  name : String
  job_role : String
  daily_rate : Int
  clock_code : String
  is_active : Bool
  created_at : Nat
deriving DecidableEq, Repr

/-- Row of the immutable time_entries table: id, employee_id, type,
timestamp, created_at. -/
structure TimeEntry where
  id : Nat
  employee_id : Nat
  type : EntryType
  timestamp : Nat
  created_at : Nat
deriving DecidableEq, Repr

/-- Row of the shifts table: id, employee_id, clock_in_id (UNIQUE),
clock_out_id (UNIQUE), started_at, ended_at (CHECK ended_at > started_at),
money_gained (CHECK money_gained >= 0), created_at. -/
structure Shift where
  id : Nat
  employee_id : Nat
  clock_in_id : Nat
  clock_out_id : Nat
  started_at : Nat
  ended_at : Nat
  money_gained : Int
  created_at : Nat
deriving DecidableEq, Repr

/-- The persistent store: the three tables, in insertion order, plus the
SERIAL id counters for time_entries and shifts. -/
structure DB where
  employees : List Employee
  entries : List TimeEntry
  shifts : List Shift
  next_entry_id : Nat
  next_shift_id : Nat
deriving DecidableEq, Repr

/-- A fresh database holding a given employee directory and no clock
events or shifts; SERIAL counters start at 1. -/
def DB.init (emps : List Employee) : DB :=
  ⟨emps, [], [], 1, 1⟩

/-- Errors of the clock engine: InvalidCode when the code resolves to no
active employee; InvalidTimestamp when the derived shift would violate the
CHECK ended_at > started_at; CheckViolation when it would violate the
CHECK money_gained >= 0.  Any error aborts the transaction. -/
inductive ClockError
  | InvalidCode
  | InvalidTimestamp
  | CheckViolation
deriving DecidableEq, Repr

/-- ClockService._get_active_employee: resolve a clock code to an active
employee (SELECT ... WHERE clock_code = code AND is_active). -/
def get_active_employee (db : DB) (code : String) : Option Employee :=
  db.employees.find? fun e => e.is_active && decide (e.clock_code = code)

/-- All time entries of one employee, in insertion order. -/
def entries_for (db : DB) (empId : Nat) : List TimeEntry :=
  db.entries.filter fun t => decide (t.employee_id = empId)

/-- Of an earlier-inserted entry and the best later candidate, the one
with the greater timestamp; the later-inserted row wins ties. -/
def laterOf (t : TimeEntry) : Option TimeEntry → Option TimeEntry
  | none => some t
  | some b => if t.timestamp ≤ b.timestamp then some b else some t

/-- The entry with the maximal timestamp (ORDER BY timestamp DESC LIMIT 1);
on equal timestamps the later-inserted row is picked. -/
def latestEntry : List TimeEntry → Option TimeEntry
  | [] => none
  | t :: rest => laterOf t (latestEntry rest)

/-- ClockService._get_last_time_entry: the employee's chronologically
latest clock event, if any. -/
def get_last_time_entry (db : DB) (empId : Nat) : Option TimeEntry :=
  latestEntry (entries_for db empId)

/-- ClockService.process_clock_action: resolve the employee by code,
determine the next action (OUT if the last entry exists and is IN,
otherwise IN), append the time entry, and on OUT derive the shift with a
snapshot of the employee's daily_rate, all as one atomic transaction.
On any error nothing is persisted. -/
def process_clock_action (db : DB) (code : String) (now : Nat) :
    Except ClockError (DB × TimeEntry × EntryType) :=
  match get_active_employee db code with
  | none => .error .InvalidCode
  | some emp =>
    match get_last_time_entry db emp.id with
    | some b =>
      if b.type = .IN then
        if b.timestamp < now then
          if 0 ≤ emp.daily_rate then
            .ok (⟨db.employees,
                  db.entries ++ [⟨db.next_entry_id, emp.id, .OUT, now, now⟩],
                  db.shifts ++ [⟨db.next_shift_id, emp.id, b.id,
                    db.next_entry_id, b.timestamp, now, emp.daily_rate, now⟩],
                  db.next_entry_id + 1, db.next_shift_id + 1⟩,
                 ⟨db.next_entry_id, emp.id, .OUT, now, now⟩, .OUT)
          else .error .CheckViolation
        else .error .InvalidTimestamp
      else
        .ok (⟨db.employees,
              db.entries ++ [⟨db.next_entry_id, emp.id, .IN, now, now⟩],
              db.shifts, db.next_entry_id + 1, db.next_shift_id⟩,
             ⟨db.next_entry_id, emp.id, .IN, now, now⟩, .IN)
    | none =>
      .ok (⟨db.employees,
            db.entries ++ [⟨db.next_entry_id, emp.id, .IN, now, now⟩],
            db.shifts, db.next_entry_id + 1, db.next_shift_id⟩,
           ⟨db.next_entry_id, emp.id, .IN, now, now⟩, .IN)

/-- The state after one clock call: the new state on success, the old
state on failure (rollback). -/
def stepClock (db : DB) (a : String × Nat) : DB :=
  match process_clock_action db a.1 a.2 with
  | .ok (db', _, _) => db'
  | .error _ => db

/-- The state after a sequence of clock calls, each a code together with
the wall-clock time of the call. -/
def runTrace (db : DB) (l : List (String × Nat)) : DB :=
  l.foldl stepClock db

/-- ClockService.get_open_shift_for_employee: the employee's last clock
event exists and is an IN with no following OUT. -/
def get_open_shift_for_employee (db : DB) (empId : Nat) : Bool :=
  match get_last_time_entry db empId with
  | some b => decide (b.type = .IN)
  | none => false

/-- The employee's event kinds in insertion order. -/
def kinds_for (db : DB) (empId : Nat) : List EntryType :=
  (entries_for db empId).map TimeEntry.type

/-- altFrom e l: the kinds l strictly alternate, the first being e. -/
def altFrom : EntryType → List EntryType → Bool
  | _, [] => true
  | e, k :: rest => decide (k = e) && altFrom (flipKind e) rest

/-- Errors of employee deactivation: unknown id (404), employee already
inactive (400), employee with an open shift (400). -/
inductive DeactivateError
  | NotFound
  | AlreadyInactive
  | OpenShiftExists
deriving DecidableEq, Repr

/-- Modelled from the spec: employee_service.deactivate_employee itself is
not among the sources; its open-shift guard is (it asks
get_open_shift_for_employee and refuses to deactivate), and the
repository's verification notes record that an unknown id fails with 404
and an already-inactive employee fails with 400 before that guard.
Deactivation is a soft delete setting is_active to false. -/
def deactivate_employee (db : DB) (empId : Nat) : Except DeactivateError DB :=
  match db.employees.find? (fun e => decide (e.id = empId)) with
  | none => .error .NotFound
  | some e =>
    if e.is_active = false then .error .AlreadyInactive
    else if get_open_shift_for_employee db empId then .error .OpenShiftExists
    else .ok ⟨db.employees.map
        (fun x => if x.id = empId then
          ⟨x.id, x.name, x.job_role, x.daily_rate, x.clock_code, false,
            x.created_at⟩ else x),
      db.entries, db.shifts, db.next_entry_id, db.next_shift_id⟩

/-- Partial update payload of PATCH /employees: each field optional. -/
structure EmployeeUpdate where
  name : Option String
  job_role : Option String
  daily_rate : Option Int
  clock_code : Option String
deriving DecidableEq, Repr

/-- Errors of employee update: schema validation (422), unknown id (404),
code change during an open shift (400), duplicate active code (409). -/
inductive UpdateError
  | ValidationError
  | NotFound
  | OpenShiftExists
  | CodeConflict
deriving DecidableEq, Repr

/-- A clock code is exactly four digits. -/
def isFourDigitCode (s : String) : Bool :=
  decide (s.length = 4) && s.toList.all Char.isDigit

/-- Modelled from the spec: employee_service.update_employee is not among
the sources.  Per the repository's notes, schema validation requires any
supplied daily_rate to be greater than 0 and any supplied clock_code to be
four digits; the service then rejects a clock-code change while the
employee has an open shift, and a new code already used by another active
employee conflicts; otherwise the supplied fields replace the old ones. -/
def update_employee (db : DB) (empId : Nat) (upd : EmployeeUpdate) :
    Except UpdateError DB :=
  if (match upd.daily_rate with | some r => decide (r ≤ 0) | none => false) then
    .error .ValidationError
  else if (match upd.clock_code with
      | some c => !(isFourDigitCode c) | none => false) then
    .error .ValidationError
  else
    match db.employees.find? (fun e => decide (e.id = empId)) with
    | none => .error .NotFound
    | some e =>
      if (match upd.clock_code with
          | some c => decide (c ≠ e.clock_code) &&
              get_open_shift_for_employee db empId
          | none => false) then
        .error .OpenShiftExists
      else if (match upd.clock_code with
          | some c => db.employees.any fun x =>
              decide (x.id ≠ empId) && x.is_active && decide (x.clock_code = c)
          | none => false) then
        .error .CodeConflict
      else
        .ok ⟨db.employees.map (fun x => if x.id = empId then
            ⟨x.id, upd.name.getD x.name, upd.job_role.getD x.job_role,
              upd.daily_rate.getD x.daily_rate,
              upd.clock_code.getD x.clock_code, x.is_active,
              x.created_at⟩ else x),
          db.entries, db.shifts, db.next_entry_id, db.next_shift_id⟩

/-- Creation payload of POST /employees. -/
structure EmployeeCreate where
  name : String
  job_role : String
  daily_rate : Int
  clock_code : String
deriving DecidableEq, Repr

/-- Errors of employee creation: schema validation (422), duplicate active
clock code (409). -/
inductive CreateError
  | ValidationError
  | CodeConflict
deriving DecidableEq, Repr

/-- Modelled from the spec: employee_service.create_employee is not among
the sources.  Per the repository's notes, schema validation requires
daily_rate greater than 0 (a zero or negative rate is rejected with 422
before anything is written) and a four-digit clock_code; a code already
used by an active employee conflicts with 409; otherwise the employee is
inserted active. -/
def create_employee (db : DB) (p : EmployeeCreate) (newId : Nat) (now : Nat) :
    Except CreateError (DB × Employee) :=
  if decide (p.daily_rate ≤ 0) || !(isFourDigitCode p.clock_code) then
    .error .ValidationError
  else if db.employees.any (fun e => e.is_active &&
      decide (e.clock_code = p.clock_code)) then
    .error .CodeConflict
  else
    let e : Employee :=
      ⟨newId, p.name, p.job_role, p.daily_rate, p.clock_code, true, now⟩
    .ok (⟨db.employees ++ [e], db.entries, db.shifts,
          db.next_entry_id, db.next_shift_id⟩, e)

/-- The admin form state of EmployeesPage.jsx: daily_rate is the parsed
numeric value of the input (none for an empty field). -/
structure EmployeeForm where
  name : String
  job_role : String
  daily_rate : Option Int
  clock_code : String
deriving DecidableEq, Repr

/-- EmployeesPage.validateForm: name and job role required (trimmed),
daily rate required and strictly greater than 0, clock code required and
exactly 4 digits.  Returns true when there are no errors. -/
def validateForm (f : EmployeeForm) : Bool :=
  !f.name.trim.isEmpty &&
  !f.job_role.trim.isEmpty &&
  (match f.daily_rate with
   | none => false
   | some r => decide (0 < r)) &&
  (!f.clock_code.isEmpty && isFourDigitCode f.clock_code)

/-- A shift is well formed in a database state: its clock-in and clock-out
references resolve to an IN entry immediately followed by an OUT entry in
that employee's event sequence, with matching timestamps and a strictly
later end. -/
def ShiftOk (db : DB) (s : Shift) : Prop :=
  ∃ pre post t1 t2,
    entries_for db s.employee_id = pre ++ t1 :: t2 :: post ∧
    t1.id = s.clock_in_id ∧ t2.id = s.clock_out_id ∧
    t1.type = .IN ∧ t2.type = .OUT ∧
    t1.timestamp = s.started_at ∧ t2.timestamp = s.ended_at ∧
    s.started_at < s.ended_at

/-- The global invariant maintained by the clock engine: entry ids are
below the SERIAL counter and strictly increasing, timestamps are strictly
increasing, every employee's kinds alternate starting with IN, every shift
is well formed, and the UNIQUE constraints on clock_in_id and clock_out_id
hold, with no entry both an in- and an out-reference. -/
structure DBInv (db : DB) : Prop where
  ids_lt : ∀ t ∈ db.entries, t.id < db.next_entry_id
  ids_sorted : (db.entries.map TimeEntry.id).Pairwise (· < ·)
  times_sorted : (db.entries.map TimeEntry.timestamp).Pairwise (· < ·)
  alt : ∀ emp, altFrom .IN (kinds_for db emp) = true
  shifts_ok : ∀ s ∈ db.shifts, ShiftOk db s
  in_nodup : (db.shifts.map Shift.clock_in_id).Nodup
  out_nodup : (db.shifts.map Shift.clock_out_id).Nodup
  in_ne_out : ∀ s ∈ db.shifts, ∀ s' ∈ db.shifts, s.clock_in_id ≠ s'.clock_out_id
  in_lt : ∀ s ∈ db.shifts, s.clock_in_id < db.next_entry_id
  out_lt : ∀ s ∈ db.shifts, s.clock_out_id < db.next_entry_id

/-- Every timestamp already stored is strictly before the given time. -/
def FreshTime (db : DB) (n : Nat) : Prop :=
  ∀ t ∈ db.entries, t.timestamp < n

/-- The fresh database satisfies the invariant. -/
theorem DBInv.init (emps : List Employee) : DBInv (DB.init emps) := by
  constructor <;> simp [DB.init, kinds_for, entries_for, altFrom]

/-- A successful clock call is fully characterised: the resolved employee,
the appended entry, the unchanged employee directory, and either an IN
with no new shift (last entry absent or an OUT) or an OUT appending the
derived shift. -/
theorem pca_ok_spec (db : DB) (code : String) (now : Nat) (db' : DB)
    (te : TimeEntry) (act : EntryType)
    (h : process_clock_action db code now = .ok (db', te, act)) :
    ∃ emp, get_active_employee db code = some emp ∧
      te = ⟨db.next_entry_id, emp.id, act, now, now⟩ ∧
      db'.employees = db.employees ∧
      db'.entries = db.entries ++ [te] ∧
      db'.next_entry_id = db.next_entry_id + 1 ∧
      ((act = .IN ∧ db'.shifts = db.shifts ∧
          db'.next_shift_id = db.next_shift_id ∧
          (get_last_time_entry db emp.id = none ∨
            ∃ b, get_last_time_entry db emp.id = some b ∧ b.type = .OUT)) ∨
       (act = .OUT ∧ ∃ b, get_last_time_entry db emp.id = some b ∧
          b.type = .IN ∧ b.timestamp < now ∧ 0 ≤ emp.daily_rate ∧
          db'.shifts = db.shifts ++
            [⟨db.next_shift_id, emp.id, b.id, db.next_entry_id, b.timestamp,
              now, emp.daily_rate, now⟩] ∧
          db'.next_shift_id = db.next_shift_id + 1)) := by
  unfold process_clock_action at h
  split at h
  · exact absurd h (by simp)
  · rename_i emp hge
    split at h
    · rename_i b hle
      split at h
      · rename_i hk
        split at h
        · rename_i ht
          split at h
          · rename_i hm
            simp only [Except.ok.injEq, Prod.mk.injEq] at h
            obtain ⟨hdb, hte, hact⟩ := h
            subst hdb; subst hte; subst hact
            exact ⟨emp, hge, rfl, rfl, rfl, rfl,
              Or.inr ⟨rfl, b, hle, hk, ht, hm, rfl, rfl⟩⟩
          · exact absurd h (by simp)
        · exact absurd h (by simp)
      · rename_i hk
        simp only [Except.ok.injEq, Prod.mk.injEq] at h
        obtain ⟨hdb, hte, hact⟩ := h
        subst hdb; subst hte; subst hact
        have hbout : b.type = EntryType.OUT := by
          cases hbt : b.type with
          | IN => exact absurd hbt hk
          | OUT => rfl
        exact ⟨emp, hge, rfl, rfl, rfl, rfl,
          Or.inl ⟨rfl, rfl, rfl, Or.inr ⟨b, hle, hbout⟩⟩⟩
    · rename_i hle
      simp only [Except.ok.injEq, Prod.mk.injEq] at h
      obtain ⟨hdb, hte, hact⟩ := h
      subst hdb; subst hte; subst hact
      exact ⟨emp, hge, rfl, rfl, rfl, rfl, Or.inl ⟨rfl, rfl, rfl, Or.inl hle⟩⟩

/-- The latest entry belongs to the list. -/
theorem latestEntry_mem (l : List TimeEntry) :
    ∀ b, latestEntry l = some b → b ∈ l := by
  induction l with
  | nil => intro b h; simp [latestEntry] at h
  | cons t rest ih =>
    intro b h
    simp only [latestEntry] at h
    cases hr : latestEntry rest with
    | none =>
      rw [hr] at h; simp only [laterOf] at h
      cases Option.some.inj h
      exact List.mem_cons_self _ _
    | some c =>
      rw [hr] at h; simp only [laterOf] at h
      by_cases hts : t.timestamp ≤ c.timestamp
      · rw [if_pos hts] at h
        cases Option.some.inj h
        exact List.mem_cons_of_mem t (ih _ hr)
      · rw [if_neg hts] at h
        cases Option.some.inj h
        exact List.mem_cons_self _ _

/-- An empty latest entry means an empty list. -/
theorem latestEntry_eq_none (l : List TimeEntry)
    (h : latestEntry l = none) : l = [] := by
  cases l with
  | nil => rfl
  | cons t rest =>
    simp only [latestEntry] at h
    cases hr : latestEntry rest with
    | none => rw [hr] at h; simp only [laterOf] at h; cases h
    | some c =>
      rw [hr] at h; simp only [laterOf] at h
      by_cases hts : t.timestamp ≤ c.timestamp
      · rw [if_pos hts] at h; cases h
      · rw [if_neg hts] at h; cases h

/-- The latest entry has the greatest timestamp of the list. -/
theorem latestEntry_ts_ge (l : List TimeEntry) :
    ∀ b, latestEntry l = some b → ∀ t ∈ l, t.timestamp ≤ b.timestamp := by
  induction l with
  | nil => intro b h t ht; cases ht
  | cons t rest ih =>
    intro b h u hu
    simp only [latestEntry] at h
    cases hr : latestEntry rest with
    | none =>
      rw [hr] at h; simp only [laterOf] at h
      cases Option.some.inj h
      have hrest := latestEntry_eq_none rest hr
      cases hu with
      | head => exact le_rfl
      | tail _ hmem => rw [hrest] at hmem; cases hmem
    | some c =>
      rw [hr] at h; simp only [laterOf] at h
      by_cases hts : t.timestamp ≤ c.timestamp
      · rw [if_pos hts] at h
        cases Option.some.inj h
        cases hu with
        | head => exact hts
        | tail _ hmem => exact ih _ hr u hmem
      · rw [if_neg hts] at h
        cases Option.some.inj h
        cases hu with
        | head => exact le_rfl
        | tail _ hmem => exact le_trans (ih _ hr u hmem) (le_of_not_le hts)

/-- Appending an entry at least as late as everything in the list makes it
the latest entry. -/
theorem latestEntry_concat (l : List TimeEntry) (te : TimeEntry)
    (h : ∀ t ∈ l, t.timestamp ≤ te.timestamp) :
    latestEntry (l ++ [te]) = some te := by
  induction l with
  | nil => simp [latestEntry, laterOf]
  | cons t rest ih =>
    have hr : latestEntry (rest ++ [te]) = some te :=
      ih fun u hu => h u (List.mem_cons_of_mem t hu)
    show latestEntry (t :: (rest ++ [te])) = some te
    simp only [latestEntry]
    rw [hr]
    simp only [laterOf]
    rw [if_pos (h t (List.mem_cons_self t rest))]

/-- Alternation is preserved by appending the kind the engine determines:
the flip of the last kind, or the expected kind on an empty history. -/
theorem altFrom_concat (e d : EntryType) (l : List EntryType)
    (h : altFrom e l = true)
    (hd : (l = [] ∧ d = e) ∨ ∃ pre k, l = pre ++ [k] ∧ d = flipKind k) :
    altFrom e (l ++ [d]) = true := by
  induction l generalizing e with
  | nil =>
    rcases hd with ⟨_, hde⟩ | ⟨pre, k, hpre, _⟩
    · subst hde; simp [altFrom]
    · exact absurd hpre.symm (List.append_ne_nil_of_right_ne_nil pre (by simp))
  | cons a l' ih =>
    rcases hd with ⟨hnil, _⟩ | ⟨pre, k, hpre, hdk⟩
    · cases hnil
    · unfold altFrom at h
      rw [Bool.and_eq_true] at h
      obtain ⟨hae, hrest⟩ := h
      have hae' : a = e := of_decide_eq_true hae
      cases pre with
      | nil =>
        injection hpre with hak hnil
        subst hdk
        rw [hnil, ← hak, hae']
        simp [altFrom]
      | cons p pre' =>
        injection hpre with hap hl'
        have ihh := ih (flipKind e) hrest (Or.inr ⟨pre', k, hl', hdk⟩)
        show altFrom e (a :: (l' ++ [d])) = true
        unfold altFrom
        rw [hae', decide_eq_true rfl]
        simpa using ihh

/-- Membership in an employee's entry list. -/
theorem mem_entries_for (db : DB) (empId : Nat) (t : TimeEntry)
    (h : t ∈ entries_for db empId) : t ∈ db.entries ∧ t.employee_id = empId := by
  unfold entries_for at h
  have h' := List.mem_filter.mp h
  exact ⟨h'.1, of_decide_eq_true h'.2⟩

/-- An employee's entry list is a sublist of the full table. -/
theorem entries_for_sublist (db : DB) (empId : Nat) :
    (entries_for db empId).Sublist db.entries :=
  List.filter_sublist db.entries

/-- Appending one entry to the table appends it to exactly its employee's
entry list. -/
theorem entries_for_append (db db' : DB) (te : TimeEntry)
    (h : db'.entries = db.entries ++ [te]) (empId : Nat) :
    entries_for db' empId =
      entries_for db empId ++ if te.employee_id = empId then [te] else [] := by
  unfold entries_for
  rw [h, List.filter_append]
  by_cases he : te.employee_id = empId
  · rw [if_pos he]
    simp [he]
  · rw [if_neg he]
    simp [he]

/-- An employee's entry timestamps inherit strict ordering from the
table. -/
theorem entries_for_times_sorted (db : DB)
    (h : (db.entries.map TimeEntry.timestamp).Pairwise (· < ·)) (empId : Nat) :
    ((entries_for db empId).map TimeEntry.timestamp).Pairwise (· < ·) :=
  List.Pairwise.sublist (List.Sublist.map _ (entries_for_sublist db empId)) h

/-- An employee's entry ids inherit strict ordering from the table. -/
theorem entries_for_ids_sorted (db : DB)
    (h : (db.entries.map TimeEntry.id).Pairwise (· < ·)) (empId : Nat) :
    ((entries_for db empId).map TimeEntry.id).Pairwise (· < ·) :=
  List.Pairwise.sublist (List.Sublist.map _ (entries_for_sublist db empId)) h

/-- Strictly increasing ids make entries with equal ids equal. -/
theorem id_inj_of_sorted (l : List TimeEntry)
    (h : (l.map TimeEntry.id).Pairwise (· < ·)) :
    ∀ t ∈ l, ∀ u ∈ l, t.id = u.id → t = u := by
  have hnd : (l.map TimeEntry.id).Nodup :=
    List.Pairwise.imp (fun hlt => Nat.ne_of_lt hlt) h
  intro t ht u hu htu
  exact List.inj_on_of_nodup_map hnd ht hu htu

/-- With strictly increasing timestamps, the latest entry is the last
element, and the list decomposes around it. -/
theorem latestEntry_decomp (l : List TimeEntry) (b : TimeEntry)
    (hs : (l.map TimeEntry.timestamp).Pairwise (· < ·))
    (h : latestEntry l = some b) : ∃ pre, l = pre ++ [b] := by
  rcases List.eq_nil_or_concat l with hnil | ⟨pre, c, hpc⟩
  · rw [hnil] at h; simp [latestEntry] at h
  · rw [List.concat_eq_append] at hpc
    refine ⟨pre, ?_⟩
    have hle : ∀ t ∈ pre, t.timestamp ≤ c.timestamp := by
      intro t ht
      rw [hpc, List.map_append] at hs
      have := (List.pairwise_append.mp hs).2.2
      exact le_of_lt (this t.timestamp (List.mem_map_of_mem _ ht)
        c.timestamp (by simp))
    have hlast : latestEntry l = some c := by
      rw [hpc]; exact latestEntry_concat pre c hle
    rw [h] at hlast
    rw [hpc, Option.some.inj hlast]

/-- Appending an entry to the table preserves well-formedness of an
existing shift. -/
theorem ShiftOk_extend (db db' : DB) (te : TimeEntry)
    (hent : db'.entries = db.entries ++ [te]) (s : Shift)
    (h : ShiftOk db s) : ShiftOk db' s := by
  obtain ⟨pre, post, t1, t2, hdec, h1, h2, h3, h4, h5, h6, h7⟩ := h
  have happ := entries_for_append db db' te hent s.employee_id
  refine ⟨pre, post ++ (if te.employee_id = s.employee_id then [te] else []),
    t1, t2, ?_, h1, h2, h3, h4, h5, h6, h7⟩
  rw [happ, hdec]
  simp [List.append_assoc]

/-- The OUT entry referenced by a well-formed shift. -/
theorem shift_out_entry (db : DB) (hinv : DBInv db) (s : Shift)
    (hs : s ∈ db.shifts) :
    ∃ t2, t2 ∈ db.entries ∧ t2.id = s.clock_out_id ∧ t2.type = .OUT := by
  obtain ⟨pre, post, t1, t2, hdec, h1, h2, h3, h4, _⟩ := hinv.shifts_ok s hs
  have ht2 : t2 ∈ entries_for db s.employee_id := by rw [hdec]; simp
  exact ⟨t2, (mem_entries_for db _ t2 ht2).1, h2, h4⟩

/-- An employee's latest entry is not yet the clock-in of any shift: every
shift's IN entry has a strictly later OUT entry after it. -/
theorem clock_in_fresh (db : DB) (hinv : DBInv db) (empId : Nat)
    (b : TimeEntry) (hlast : get_last_time_entry db empId = some b) :
    ∀ s ∈ db.shifts, s.clock_in_id ≠ b.id := by
  unfold get_last_time_entry at hlast
  intro s hs heq
  obtain ⟨pre, post, t1, t2, hdec, h1, h2, h3, h4, h5, h6, h7⟩ :=
    hinv.shifts_ok s hs
  have ht1mem : t1 ∈ entries_for db s.employee_id := by rw [hdec]; simp
  have hbmem : b ∈ entries_for db empId := latestEntry_mem _ b hlast
  have ht1e := mem_entries_for db _ t1 ht1mem
  have hbe := mem_entries_for db _ b hbmem
  have ht1b : t1 = b :=
    id_inj_of_sorted db.entries hinv.ids_sorted t1 ht1e.1 b hbe.1
      (by rw [h1, heq])
  have hempeq : s.employee_id = empId := by rw [← ht1e.2, ht1b, hbe.2]
  have hle : t2.timestamp ≤ b.timestamp := by
    apply latestEntry_ts_ge (entries_for db empId) b hlast
    rw [← hempeq, hdec]; simp
  have hsorted := entries_for_times_sorted db hinv.times_sorted s.employee_id
  rw [hdec, ht1b, List.map_append] at hsorted
  have hright := (List.pairwise_append.mp hsorted).2.1
  rw [List.map_cons, List.map_cons] at hright
  have hlt := (List.pairwise_cons.mp hright).1 t2.timestamp (by simp)
  exact absurd hle (not_le.mpr hlt)

/-- A successful clock call preserves the global invariant. -/
theorem pca_preserves_inv (db : DB) (code : String) (now : Nat) (db' : DB)
    (te : TimeEntry) (act : EntryType)
    (h : process_clock_action db code now = .ok (db', te, act))
    (hf : FreshTime db now) (hinv : DBInv db) : DBInv db' := by
  obtain ⟨emp, hge, hte, hemp, hent, hnid, hcase⟩ :=
    pca_ok_spec db code now db' te act h
  have hteid : te.id = db.next_entry_id := by rw [hte]
  have htets : te.timestamp = now := by rw [hte]
  have hteemp : te.employee_id = emp.id := by rw [hte]
  have htekind : te.type = act := by rw [hte]
  have ids_lt' : ∀ t ∈ db'.entries, t.id < db'.next_entry_id := by
    intro t ht
    rw [hent] at ht
    rw [hnid]
    rcases List.mem_append.mp ht with h1 | h1
    · exact Nat.lt_succ_of_lt (hinv.ids_lt t h1)
    · rw [List.mem_singleton.mp h1, hteid]; exact Nat.lt_succ_self _
  have ids_sorted' : (db'.entries.map TimeEntry.id).Pairwise (· < ·) := by
    rw [hent, List.map_append, List.pairwise_append]
    refine ⟨hinv.ids_sorted, by simp, ?_⟩
    intro x hx y hy
    rw [List.map_singleton, List.mem_singleton] at hy
    obtain ⟨t, ht, rfl⟩ := List.mem_map.mp hx
    rw [hy, hteid]
    exact hinv.ids_lt t ht
  have times_sorted' : (db'.entries.map TimeEntry.timestamp).Pairwise (· < ·) := by
    rw [hent, List.map_append, List.pairwise_append]
    refine ⟨hinv.times_sorted, by simp, ?_⟩
    intro x hx y hy
    rw [List.map_singleton, List.mem_singleton] at hy
    obtain ⟨t, ht, rfl⟩ := List.mem_map.mp hx
    rw [hy, htets]
    exact hf t ht
  have alt' : ∀ e, altFrom .IN (kinds_for db' e) = true := by
    intro e
    have happ := entries_for_append db db' te hent e
    by_cases he : te.employee_id = e
    · rw [if_pos he] at happ
      have hkinds : kinds_for db' e = kinds_for db e ++ [act] := by
        unfold kinds_for
        rw [happ, List.map_append, List.map_singleton, htekind]
      rw [hkinds]
      apply altFrom_concat _ _ _ (hinv.alt e)
      have hee : emp.id = e := by rw [← hteemp, he]
      rcases hcase with ⟨hIN, _, _, hlast⟩ | ⟨hOUT, b, hb, hbIN, _, _, _, _⟩
      · rcases hlast with hnone | ⟨b, hsome, hbOUT⟩
        · left
          refine ⟨?_, hIN⟩
          unfold get_last_time_entry at hnone
          rw [hee] at hnone
          unfold kinds_for
          rw [latestEntry_eq_none _ hnone]
          rfl
        · right
          unfold get_last_time_entry at hsome
          rw [hee] at hsome
          obtain ⟨pre, hpre⟩ := latestEntry_decomp (entries_for db e) b
            (entries_for_times_sorted db hinv.times_sorted e) hsome
          refine ⟨pre.map TimeEntry.type, b.type, ?_, ?_⟩
          · unfold kinds_for; rw [hpre]; simp
          · rw [hIN, hbOUT]; rfl
      · right
        unfold get_last_time_entry at hb
        rw [hee] at hb
        obtain ⟨pre, hpre⟩ := latestEntry_decomp (entries_for db e) b
          (entries_for_times_sorted db hinv.times_sorted e) hb
        refine ⟨pre.map TimeEntry.type, b.type, ?_, ?_⟩
        · unfold kinds_for; rw [hpre]; simp
        · rw [hOUT, hbIN]; rfl
    · rw [if_neg he] at happ
      have hkinds : kinds_for db' e = kinds_for db e := by
        unfold kinds_for; rw [happ]; simp
      rw [hkinds]; exact hinv.alt e
  rcases hcase with ⟨hIN, hsh, hnsid, hlast⟩ |
    ⟨hOUT, b, hb, hbIN, hbts, hrate, hsh, hnsid⟩
  · refine ⟨ids_lt', ids_sorted', times_sorted', alt', ?_, ?_, ?_, ?_, ?_, ?_⟩
    · rw [hsh]
      intro s hs
      exact ShiftOk_extend db db' te hent s (hinv.shifts_ok s hs)
    · rw [hsh]; exact hinv.in_nodup
    · rw [hsh]; exact hinv.out_nodup
    · rw [hsh]; exact hinv.in_ne_out
    · rw [hsh, hnid]
      intro s hs
      exact Nat.lt_succ_of_lt (hinv.in_lt s hs)
    · rw [hsh, hnid]
      intro s hs
      exact Nat.lt_succ_of_lt (hinv.out_lt s hs)
  · have hbmem : b ∈ db.entries :=
      (mem_entries_for db emp.id b (latestEntry_mem _ b hb)).1
    have hbid : b.id < db.next_entry_id := hinv.ids_lt b hbmem
    refine ⟨ids_lt', ids_sorted', times_sorted', alt', ?_, ?_, ?_, ?_, ?_, ?_⟩
    · rw [hsh]
      intro s hs
      rcases List.mem_append.mp hs with hold | hnew
      · exact ShiftOk_extend db db' te hent s (hinv.shifts_ok s hold)
      · rw [List.mem_singleton.mp hnew]
        obtain ⟨pre, hpre⟩ := latestEntry_decomp (entries_for db emp.id) b
          (entries_for_times_sorted db hinv.times_sorted emp.id) hb
        refine ⟨pre, [], b, te, ?_, rfl, hteid, hbIN, ?_, rfl, ?_, hbts⟩
        · have happ := entries_for_append db db' te hent emp.id
          rw [if_pos hteemp] at happ
          rw [happ, hpre]
          simp
        · rw [htekind, hOUT]
        · rw [htets]
    · rw [hsh, List.map_append, List.nodup_append]
      refine ⟨hinv.in_nodup, by simp, ?_⟩
      intro x hx
      obtain ⟨s, hs, rfl⟩ := List.mem_map.mp hx
      simp only [List.map_cons, List.map_nil, List.mem_singleton]
      exact clock_in_fresh db hinv emp.id b hb s hs
    · rw [hsh, List.map_append, List.nodup_append]
      refine ⟨hinv.out_nodup, by simp, ?_⟩
      intro x hx
      obtain ⟨s, hs, rfl⟩ := List.mem_map.mp hx
      simp only [List.map_cons, List.map_nil, List.mem_singleton]
      exact Nat.ne_of_lt (hinv.out_lt s hs)
    · rw [hsh]
      intro s hs s' hs'
      rcases List.mem_append.mp hs with hsold | hsnew
      · rcases List.mem_append.mp hs' with hs'old | hs'new
        · exact hinv.in_ne_out s hsold s' hs'old
        · rw [List.mem_singleton.mp hs'new]
          exact Nat.ne_of_lt (hinv.in_lt s hsold)
      · rcases List.mem_append.mp hs' with hs'old | hs'new
        · rw [List.mem_singleton.mp hsnew]
          intro habs
          obtain ⟨t2, ht2mem, ht2id, ht2kind⟩ := shift_out_entry db hinv s' hs'old
          have : b = t2 :=
            id_inj_of_sorted db.entries hinv.ids_sorted b hbmem t2 ht2mem
              (by rw [ht2id, ← habs])
          rw [this, ht2kind] at hbIN
          cases hbIN
        · rw [List.mem_singleton.mp hsnew, List.mem_singleton.mp hs'new]
          exact Nat.ne_of_lt hbid
    · rw [hsh, hnid]
      intro s hs
      rcases List.mem_append.mp hs with hold | hnew
      · exact Nat.lt_succ_of_lt (hinv.in_lt s hold)
      · rw [List.mem_singleton.mp hnew]
        exact Nat.lt_succ_of_lt hbid
    · rw [hsh, hnid]
      intro s hs
      rcases List.mem_append.mp hs with hold | hnew
      · exact Nat.lt_succ_of_lt (hinv.out_lt s hold)
      · rw [List.mem_singleton.mp hnew]
        exact Nat.lt_succ_self _

/-- One clock call preserves the invariant, and every entry afterwards is
an old entry or carries the call's timestamp. -/
theorem stepClock_preserves (db : DB) (a : String × Nat)
    (hf : FreshTime db a.2) (hinv : DBInv db) :
    DBInv (stepClock db a) ∧
      ∀ t ∈ (stepClock db a).entries, t ∈ db.entries ∨ t.timestamp = a.2 := by
  unfold stepClock
  cases hp : process_clock_action db a.1 a.2 with
  | error e => exact ⟨hinv, fun t ht => Or.inl ht⟩
  | ok res =>
    obtain ⟨db', te, act⟩ := res
    refine ⟨pca_preserves_inv db a.1 a.2 db' te act hp hf hinv, ?_⟩
    obtain ⟨emp, _, hte, _, hent, _, _⟩ := pca_ok_spec db a.1 a.2 db' te act hp
    intro t ht
    rw [hent] at ht
    rcases List.mem_append.mp ht with h1 | h1
    · exact Or.inl h1
    · right
      rw [List.mem_singleton.mp h1, hte]

/-- Under a strictly increasing clock, any sequence of clock calls
preserves the invariant. -/
theorem runTrace_inv (l : List (String × Nat)) :
    ∀ db, DBInv db → (l.map Prod.snd).Pairwise (· < ·) →
      (∀ a ∈ l, FreshTime db a.2) → DBInv (runTrace db l) := by
  induction l with
  | nil => intro db hinv _ _; exact hinv
  | cons a rest ih =>
    intro db hinv hsorted hfr
    rw [List.map_cons] at hsorted
    have hps := List.pairwise_cons.mp hsorted
    have h1 := stepClock_preserves db a (hfr a (List.mem_cons_self a rest)) hinv
    show DBInv (List.foldl stepClock db (a :: rest))
    rw [List.foldl_cons]
    apply ih (stepClock db a) h1.1 hps.2
    intro c hc t ht
    rcases h1.2 t ht with hold | hts
    · exact hfr c (List.mem_cons_of_mem a hc) t hold
    · rw [hts]
      exact hps.1 c.2 (List.mem_map_of_mem _ hc)

/-- A trace started on a fresh database keeps the invariant. -/
theorem runTrace_init_inv (emps : List Employee) (l : List (String × Nat))
    (hsorted : (l.map Prod.snd).Pairwise (· < ·)) :
    DBInv (runTrace (DB.init emps) l) := by
  apply runTrace_inv l (DB.init emps) (DBInv.init emps) hsorted
  intro a _ t ht
  simp [DB.init] at ht

/-- A successful deactivation touches only the employee directory. -/
theorem deactivate_ok_spec (db : DB) (empId : Nat) (db2 : DB)
    (h : deactivate_employee db empId = .ok db2) :
    db2.shifts = db.shifts ∧ db2.entries = db.entries := by
  unfold deactivate_employee at h
  split at h
  · cases h
  · split at h
    · cases h
    · split at h
      · cases h
      · cases Except.ok.inj h
        exact ⟨rfl, rfl⟩

/-- A successful update touches only the employee directory. -/
theorem update_ok_spec (db : DB) (empId : Nat) (upd : EmployeeUpdate)
    (db2 : DB) (h : update_employee db empId upd = .ok db2) :
    db2.shifts = db.shifts ∧ db2.entries = db.entries := by
  unfold update_employee at h
  split at h
  · cases h
  · split at h
    · cases h
    · split at h
      · cases h
      · split at h
        · cases h
        · split at h
          · cases h
          · cases Except.ok.inj h
            exact ⟨rfl, rfl⟩

/-- A successful creation touches only the employee directory. -/
theorem create_ok_spec (db : DB) (p : EmployeeCreate) (newId now : Nat)
    (db2 : DB) (e : Employee)
    (h : create_employee db p newId now = .ok (db2, e)) :
    db2.shifts = db.shifts ∧ db2.entries = db.entries := by
  unfold create_employee at h
  split at h
  · cases h
  · split at h
    · cases h
    · have h' := Except.ok.inj h
      injection h' with h1 h2
      cases h1
      exact ⟨rfl, rfl⟩

/-- If every employee holding the code is inactive, code resolution finds
nobody. -/
theorem gae_none (db : DB) (code : String)
    (hno : ∀ e ∈ db.employees, e.clock_code = code → e.is_active = false) :
    get_active_employee db code = none := by
  unfold get_active_employee
  rw [List.find?_eq_none]
  intro e he hpe
  rw [Bool.and_eq_true] at hpe
  have hcode : e.clock_code = code := of_decide_eq_true hpe.2
  rw [hno e he hcode] at hpe
  cases hpe.1

/-- An unresolvable code aborts the call with InvalidCode. -/
theorem pca_invalid_code (db : DB) (code : String) (now : Nat)
    (hge : get_active_employee db code = none) :
    process_clock_action db code now = .error .InvalidCode := by
  unfold process_clock_action
  rw [hge]

/-- C1: after any sequence of clock calls made at strictly increasing
wall-clock times on a store with no prior events, every employee's stored
event kinds, already in strictly increasing timestamp order, strictly
alternate starting with IN; and the kind a successful call writes is OUT
exactly when the employee's most recent event exists and is an IN, so a
first-ever event is always an IN. -/
theorem c1_kinds_alternate (emps : List Employee) (l : List (String × Nat))
    (hmono : (l.map Prod.snd).Pairwise (· < ·)) (empId : Nat) :
    (altFrom .IN (kinds_for (runTrace (DB.init emps) l) empId) = true ∧
      ((entries_for (runTrace (DB.init emps) l) empId).map
        TimeEntry.timestamp).Pairwise (· < ·)) ∧
    (∀ db code now db' te act emp,
      process_clock_action db code now = .ok (db', te, act) →
      get_active_employee db code = some emp →
      (act = .OUT ↔ ∃ b, get_last_time_entry db emp.id = some b ∧
        b.type = .IN)) := by
  have hinv := runTrace_init_inv emps l hmono
  refine ⟨⟨hinv.alt empId, entries_for_times_sorted _ hinv.times_sorted empId⟩, ?_⟩
  intro db code now db' te act emp h hge
  obtain ⟨emp', hge', _, _, _, _, hcase⟩ := pca_ok_spec db code now db' te act h
  rw [hge] at hge'
  cases Option.some.inj hge'
  rcases hcase with ⟨hIN, _, _, hlast⟩ | ⟨hOUT, b, hb, hbIN, _⟩
  · constructor
    · intro habs
      rw [hIN] at habs
      cases habs
    · rintro ⟨b, hsome, hbIN⟩
      rcases hlast with hnone | ⟨b', hsome', hbOUT⟩
      · rw [hnone] at hsome; cases hsome
      · rw [hsome'] at hsome
        rw [Option.some.inj hsome] at hbOUT
        rw [hbOUT] at hbIN
        cases hbIN
  · exact ⟨fun _ => ⟨b, hb, hbIN⟩, fun _ => hOUT⟩

/-- C2: a successful clock call appends exactly one time entry, and it
appends exactly one shift precisely when it wrote OUT (an IN leaves the
shifts untouched); the employee-directory operations never touch the
shifts or the entries. -/
theorem c2_side_effects :
    (∀ db code now db' te act,
      process_clock_action db code now = .ok (db', te, act) →
      db'.entries = db.entries ++ [te] ∧
      ((∃ s, db'.shifts = db.shifts ++ [s]) ↔ act = .OUT) ∧
      (act = .IN → db'.shifts = db.shifts)) ∧
    (∀ db empId db2, deactivate_employee db empId = .ok db2 →
      db2.shifts = db.shifts ∧ db2.entries = db.entries) ∧
    (∀ db empId upd db2, update_employee db empId upd = .ok db2 →
      db2.shifts = db.shifts ∧ db2.entries = db.entries) ∧
    (∀ db p newId now db2 e, create_employee db p newId now = .ok (db2, e) →
      db2.shifts = db.shifts ∧ db2.entries = db.entries) := by
  refine ⟨?_, ?_, ?_, ?_⟩
  · intro db code now db' te act h
    obtain ⟨emp, _, _, _, hent, _, hcase⟩ := pca_ok_spec db code now db' te act h
    refine ⟨hent, ?_, ?_⟩
    · constructor
      · rintro ⟨s, hs⟩
        rcases hcase with ⟨hIN, hsame, _⟩ | ⟨hOUT, _⟩
        · exfalso
          rw [hsame] at hs
          have := congrArg List.length hs
          simp at this
        · exact hOUT
      · intro hact
        rcases hcase with ⟨hIN, _⟩ | ⟨hOUT, b, _, _, _, _, hsh, _⟩
        · rw [hIN] at hact; cases hact
        · exact ⟨_, hsh⟩
    · intro hact
      rcases hcase with ⟨_, hsame, _⟩ | ⟨hOUT, _⟩
      · exact hsame
      · rw [hOUT] at hact; cases hact
  · intro db empId db2 h
    exact deactivate_ok_spec db empId db2 h
  · intro db empId upd db2 h
    exact update_ok_spec db empId upd db2 h
  · intro db p newId now db2 e h
    exact create_ok_spec db p newId now db2 e h

/-- C3: a code held by no currently-active employee makes the call fail
with InvalidCode and leaves the store exactly as it was; nothing is
written. -/
theorem c3_invalid_code_unchanged (db : DB) (code : String) (now : Nat)
    (hno : ∀ e ∈ db.employees, e.clock_code = code → e.is_active = false) :
    process_clock_action db code now = .error .InvalidCode ∧
    stepClock db (code, now) = db := by
  have h1 := pca_invalid_code db code now (gae_none db code hno)
  refine ⟨h1, ?_⟩
  unfold stepClock
  rw [h1]

/-- The open-shift flag is determined by the last entry. -/
theorem open_shift_flag (db : DB) (empId : Nat) (b : TimeEntry)
    (h : get_last_time_entry db empId = some b) :
    get_open_shift_for_employee db empId = decide (b.type = .IN) := by
  unfold get_open_shift_for_employee
  rw [h]

/-- After a successful OUT the new OUT entry is its employee's latest. -/
theorem last_after_out (db : DB) (code : String) (now : Nat) (db' : DB)
    (te : TimeEntry)
    (h : process_clock_action db code now = .ok (db', te, .OUT)) :
    get_last_time_entry db' te.employee_id = some te ∧ te.type = .OUT := by
  obtain ⟨emp, hge, hte, _, hent, _, hcase⟩ :=
    pca_ok_spec db code now db' te .OUT h
  rcases hcase with ⟨hIN, _⟩ | ⟨_, b, hb, hbIN, hbts, _⟩
  · cases hIN
  · have hteemp : te.employee_id = emp.id := by rw [hte]
    have htets : te.timestamp = now := by rw [hte]
    refine ⟨?_, by rw [hte]⟩
    unfold get_last_time_entry
    have happ := entries_for_append db db' te hent te.employee_id
    rw [if_pos rfl] at happ
    rw [happ]
    apply latestEntry_concat
    intro t ht
    rw [hteemp] at ht
    unfold get_last_time_entry at hb
    have hts := latestEntry_ts_ge (entries_for db emp.id) b hb t ht
    rw [htets]
    exact le_of_lt (lt_of_le_of_lt hts hbts)

/-- C4 as stated fails: an already-inactive employee has no open shift,
yet deactivation does not succeed — it fails with AlreadyInactive, not
with OpenShiftExists. -/
theorem c4_counterexample :
    get_open_shift_for_employee
      (DB.init [⟨1, "Dave", "Worker", 10000, "1234", false, 0⟩]) 1 = false ∧
    deactivate_employee
      (DB.init [⟨1, "Dave", "Worker", 10000, "1234", false, 0⟩]) 1 =
      .error .AlreadyInactive :=
  ⟨rfl, rfl⟩

/-- C4 (amended to currently-active employees): deactivating an existing,
currently-active employee fails with OpenShiftExists exactly when the
employee's last event is an open IN, succeeds otherwise, and succeeds when
retried after a successful OUT of that employee. -/
theorem c4_deactivation_guard (db : DB) (empId : Nat) (e : Employee)
    (hfind : db.employees.find? (fun x => decide (x.id = empId)) = some e)
    (hact : e.is_active = true) :
    (get_open_shift_for_employee db empId = true →
      deactivate_employee db empId = .error .OpenShiftExists) ∧
    (get_open_shift_for_employee db empId = false →
      ∃ db2, deactivate_employee db empId = .ok db2) ∧
    (∀ code now db' te,
      process_clock_action db code now = .ok (db', te, .OUT) →
      te.employee_id = empId →
      ∃ db2, deactivate_employee db' empId = .ok db2) := by
  refine ⟨?_, ?_, ?_⟩
  · intro hopen
    unfold deactivate_employee
    split
    · rename_i heq; rw [hfind] at heq; cases heq
    · rename_i e' heq
      rw [hfind] at heq
      cases Option.some.inj heq
      rw [if_neg (by simp [hact]), if_pos hopen]
  · intro hopen
    unfold deactivate_employee
    split
    · rename_i heq; rw [hfind] at heq; cases heq
    · rename_i e' heq
      rw [hfind] at heq
      cases Option.some.inj heq
      rw [if_neg (by simp [hact]), if_neg (by simp [hopen])]
      exact ⟨_, rfl⟩
  · intro code now db' te h hteemp
    have hlast := last_after_out db code now db' te h
    have hopen' : get_open_shift_for_employee db' empId = false := by
      rw [← hteemp, open_shift_flag db' te.employee_id te hlast.1, hlast.2]
      rfl
    obtain ⟨emp, _, _, hempe, _, _, _⟩ := pca_ok_spec db code now db' te .OUT h
    unfold deactivate_employee
    split
    · rename_i heq; rw [hempe, hfind] at heq; cases heq
    · rename_i e' heq
      rw [hempe, hfind] at heq
      cases Option.some.inj heq
      rw [if_neg (by simp [hact]), if_neg (by simp [hopen'])]
      exact ⟨_, rfl⟩

/-- C5: the payment stored on a shift closed by an OUT call is the
resolved employee's daily rate as read at that moment; every operation
leaves the previously stored shifts untouched, so the snapshot is never
recomputed. -/
theorem c5_payment_snapshot :
    (∀ db code now db' te emp,
      process_clock_action db code now = .ok (db', te, .OUT) →
      get_active_employee db code = some emp →
      ∃ s, db'.shifts = db.shifts ++ [s] ∧ s.money_gained = emp.daily_rate ∧
        s.employee_id = emp.id) ∧
    (∀ db code now db' te act,
      process_clock_action db code now = .ok (db', te, act) →
      ∃ tail, db'.shifts = db.shifts ++ tail) ∧
    (∀ db empId upd db2, update_employee db empId upd = .ok db2 →
      db2.shifts = db.shifts) ∧
    (∀ db empId db2, deactivate_employee db empId = .ok db2 →
      db2.shifts = db.shifts) := by
  refine ⟨?_, ?_, ?_, ?_⟩
  · intro db code now db' te emp h hge
    obtain ⟨emp', hge', _, _, _, _, hcase⟩ :=
      pca_ok_spec db code now db' te .OUT h
    rw [hge] at hge'
    cases Option.some.inj hge'
    rcases hcase with ⟨hIN, _⟩ | ⟨_, b, _, _, _, _, hsh, _⟩
    · cases hIN
    · exact ⟨_, hsh, rfl, rfl⟩
  · intro db code now db' te act h
    obtain ⟨_, _, _, _, _, _, hcase⟩ := pca_ok_spec db code now db' te act h
    rcases hcase with ⟨_, hsame, _⟩ | ⟨_, _, _, _, _, _, hsh, _⟩
    · exact ⟨[], by rw [hsame, List.append_nil]⟩
    · exact ⟨_, hsh⟩
  · intro db empId upd db2 h
    exact (update_ok_spec db empId upd db2 h).1
  · intro db empId db2 h
    exact (deactivate_ok_spec db empId db2 h).1

/-- C6: when the derived shift would end at or before its start, the call
fails with InvalidTimestamp and the whole operation is rolled back —
neither the OUT entry nor the shift is persisted. -/
theorem c6_invalid_timestamp (db : DB) (code : String) (now : Nat)
    (emp : Employee) (b : TimeEntry)
    (hge : get_active_employee db code = some emp)
    (hlast : get_last_time_entry db emp.id = some b)
    (hbIN : b.type = .IN) (hle : now ≤ b.timestamp) :
    process_clock_action db code now = .error .InvalidTimestamp ∧
    stepClock db (code, now) = db := by
  have h1 : process_clock_action db code now = .error .InvalidTimestamp := by
    unfold process_clock_action
    split
    · rename_i heq
      rw [hge] at heq; cases heq
    · rename_i emp' heq
      rw [hge] at heq
      cases Option.some.inj heq
      split
      · rename_i b' heq2
        rw [hlast] at heq2
        cases Option.some.inj heq2
        rw [if_pos hbIN, if_neg (not_lt.mpr hle)]
      · rename_i heq2
        rw [hlast] at heq2; cases heq2
  refine ⟨h1, ?_⟩
  unfold stepClock
  rw [h1]

/-- C7: after any sequence of clock calls under a strictly increasing
clock, every shift references exactly one IN entry and one OUT entry,
adjacent in that employee's event sequence — which is sorted by timestamp,
so no event of the employee lies strictly between them — and the UNIQUE
reference columns hold: no clock event is referenced by two shifts, nor as
both an IN and an OUT reference. -/
theorem c7_shift_pairing (emps : List Employee) (l : List (String × Nat))
    (hmono : (l.map Prod.snd).Pairwise (· < ·)) :
    (∀ s ∈ (runTrace (DB.init emps) l).shifts,
      ShiftOk (runTrace (DB.init emps) l) s) ∧
    ((runTrace (DB.init emps) l).shifts.map Shift.clock_in_id).Nodup ∧
    ((runTrace (DB.init emps) l).shifts.map Shift.clock_out_id).Nodup ∧
    (∀ s ∈ (runTrace (DB.init emps) l).shifts,
      ∀ s' ∈ (runTrace (DB.init emps) l).shifts,
        s.clock_in_id ≠ s'.clock_out_id) ∧
    (∀ empId, ((entries_for (runTrace (DB.init emps) l) empId).map
      TimeEntry.timestamp).Pairwise (· < ·)) := by
  have hinv := runTrace_init_inv emps l hmono
  exact ⟨hinv.shifts_ok, hinv.in_nodup, hinv.out_nodup, hinv.in_ne_out,
    fun empId => entries_for_times_sorted _ hinv.times_sorted empId⟩

/-- C8: code resolution binds only to active employees — a code held
solely by inactive employees is rejected with InvalidCode, any resolved
employee is active and matching, and when the one active holder of the
code exists (the active-uniqueness invariant), resolution returns exactly
that employee. -/
theorem c8_code_binds_active (db : DB) (code : String) (now : Nat) :
    ((∀ e ∈ db.employees, e.clock_code = code → e.is_active = false) →
      process_clock_action db code now = .error .InvalidCode) ∧
    (∀ e, get_active_employee db code = some e →
      e ∈ db.employees ∧ e.is_active = true ∧ e.clock_code = code) ∧
    (∀ e, e ∈ db.employees → e.is_active = true → e.clock_code = code →
      (∀ e', e' ∈ db.employees → e'.is_active = true → e'.clock_code = code →
        e' = e) →
      get_active_employee db code = some e) := by
  refine ⟨?_, ?_, ?_⟩
  · intro hno
    exact pca_invalid_code db code now (gae_none db code hno)
  · intro e he
    unfold get_active_employee at he
    have h1 := List.find?_some he
    rw [Bool.and_eq_true] at h1
    exact ⟨List.mem_of_find?_eq_some he, h1.1, of_decide_eq_true h1.2⟩
  · intro e he hact hcode huniq
    unfold get_active_employee
    cases hf : db.employees.find?
        (fun x => x.is_active && decide (x.clock_code = code)) with
    | none =>
      exfalso
      rw [List.find?_eq_none] at hf
      apply hf e he
      rw [Bool.and_eq_true]
      exact ⟨hact, decide_eq_true hcode⟩
    | some e' =>
      have h1 := List.find?_some hf
      rw [Bool.and_eq_true] at h1
      rw [huniq e' (List.mem_of_find?_eq_some hf) h1.1
        (of_decide_eq_true h1.2)]

/-- C9: while an employee has an open shift, an update that changes the
clock code is rejected with the open-shift error and no new state is
produced; once that employee has clocked OUT, the same update goes
through (absent a conflicting active code). -/
theorem c9_code_change_guard (db : DB) (empId : Nat) (e : Employee)
    (upd : EmployeeUpdate) (c : String)
    (hfind : db.employees.find? (fun x => decide (x.id = empId)) = some e)
    (hcode : upd.clock_code = some c) (hne : c ≠ e.clock_code)
    (h4 : isFourDigitCode c = true)
    (hrate : ∀ r, upd.daily_rate = some r → 0 < r)
    (hopen : get_open_shift_for_employee db empId = true) :
    (update_employee db empId upd = .error .OpenShiftExists ∧
      ∀ db2, update_employee db empId upd ≠ .ok db2) ∧
    (∀ code2 now db' te,
      process_clock_action db code2 now = .ok (db', te, .OUT) →
      te.employee_id = empId →
      (∀ x ∈ db.employees, x.id ≠ empId → x.is_active = true →
        x.clock_code ≠ c) →
      ∃ db2, update_employee db' empId upd = .ok db2) := by
  have hval1 : (match upd.daily_rate with
      | some r => decide (r ≤ 0) | none => false) = false := by
    cases hr : upd.daily_rate with
    | none => rfl
    | some r => exact decide_eq_false (not_le.mpr (hrate r hr))
  have hval2 : (match upd.clock_code with
      | some c2 => !(isFourDigitCode c2) | none => false) = false := by
    rw [hcode]
    show (!(isFourDigitCode c)) = false
    rw [h4]
    rfl
  constructor
  · have hmain : update_employee db empId upd = .error .OpenShiftExists := by
      unfold update_employee
      rw [if_neg (by simp [hval1]), if_neg (by simp [hval2])]
      split
      · rename_i heq; rw [hfind] at heq; cases heq
      · rename_i e' heq
        rw [hfind] at heq
        cases Option.some.inj heq
        rw [if_pos (by rw [hcode]; simp [hne, hopen])]
    refine ⟨hmain, ?_⟩
    intro db2 habs
    rw [hmain] at habs
    cases habs
  · intro code2 now db' te h hteemp hnoconf
    have hlast := last_after_out db code2 now db' te h
    have hopen' : get_open_shift_for_employee db' empId = false := by
      rw [← hteemp, open_shift_flag db' te.employee_id te hlast.1, hlast.2]
      rfl
    obtain ⟨emp, _, _, hempe, _, _, _⟩ := pca_ok_spec db code2 now db' te .OUT h
    unfold update_employee
    rw [if_neg (by simp [hval1]), if_neg (by simp [hval2])]
    split
    · rename_i heq; rw [hempe, hfind] at heq; cases heq
    · rename_i e' heq
      rw [hempe, hfind] at heq
      cases Option.some.inj heq
      have hc1 : ¬((match upd.clock_code with
          | some c2 => decide (c2 ≠ e.clock_code) &&
              get_open_shift_for_employee db' empId
          | none => false) = true) := by
        rw [hcode]
        simp [hopen']
      have hc2 : ¬((match upd.clock_code with
          | some c2 => db'.employees.any fun x =>
              decide (x.id ≠ empId) && x.is_active &&
                decide (x.clock_code = c2)
          | none => false) = true) := by
        rw [hcode, hempe]
        intro habs
        rw [List.any_eq_true] at habs
        obtain ⟨x, hx, hpx⟩ := habs
        rw [Bool.and_eq_true, Bool.and_eq_true] at hpx
        exact hnoconf x hx (of_decide_eq_true hpx.1.1) hpx.1.2
          (of_decide_eq_true hpx.2)
      rw [if_neg hc1, if_neg hc2]
      exact ⟨_, rfl⟩

/-- C10: a zero-or-negative daily rate is rejected before any employee is
written — by the admin form, by creation, and by update — even though the
shift layer only requires the stored payment to be non-negative: a shift
whose snapshot payment is exactly 0 is accepted and persisted. -/
theorem c10_positive_rate_validation (f : EmployeeForm) (r : Int) (db : DB)
    (p : EmployeeCreate) (newId now : Nat) (upd : EmployeeUpdate)
    (empId : Nat) :
    (f.daily_rate = some r → r ≤ 0 → validateForm f = false) ∧
    (f.daily_rate = none → validateForm f = false) ∧
    (p.daily_rate ≤ 0 →
      create_employee db p newId now = .error .ValidationError) ∧
    (upd.daily_rate = some r → r ≤ 0 →
      update_employee db empId upd = .error .ValidationError) ∧
    (∀ code emp b,
      get_active_employee db code = some emp → emp.daily_rate = 0 →
      get_last_time_entry db emp.id = some b → b.type = .IN →
      b.timestamp < now →
      ∃ db' te, process_clock_action db code now = .ok (db', te, .OUT) ∧
        ∃ s, db'.shifts = db.shifts ++ [s] ∧ s.money_gained = 0) := by
  refine ⟨?_, ?_, ?_, ?_, ?_⟩
  · intro hsome hle
    unfold validateForm
    rw [hsome]
    have hd : decide ((0:Int) < r) = false := decide_eq_false (not_lt.mpr hle)
    simp [hd]
  · intro hnone
    unfold validateForm
    rw [hnone]
    simp
  · intro hle
    unfold create_employee
    rw [if_pos (by rw [decide_eq_true hle]; exact Bool.true_or _)]
  · intro hsome hle
    unfold update_employee
    rw [if_pos (by rw [hsome]; exact decide_eq_true hle)]
  · intro code emp b hge hrate0 hlast hbIN hlt
    have hmain : process_clock_action db code now =
        .ok (⟨db.employees,
              db.entries ++ [⟨db.next_entry_id, emp.id, .OUT, now, now⟩],
              db.shifts ++ [⟨db.next_shift_id, emp.id, b.id,
                db.next_entry_id, b.timestamp, now, emp.daily_rate, now⟩],
              db.next_entry_id + 1, db.next_shift_id + 1⟩,
             ⟨db.next_entry_id, emp.id, .OUT, now, now⟩, .OUT) := by
      unfold process_clock_action
      split
      · rename_i heq; rw [hge] at heq; cases heq
      · rename_i emp' heq
        rw [hge] at heq
        cases Option.some.inj heq
        split
        · rename_i b' heq2
          rw [hlast] at heq2
          cases Option.some.inj heq2
          rw [if_pos hbIN, if_pos hlt, if_pos hrate0.symm.le]
        · rename_i heq2; rw [hlast] at heq2; cases heq2
    exact ⟨_, _, hmain, _, rfl, hrate0⟩

/-- Example active employee, rate 120.00, code 1234. -/
def exAlice : Employee := ⟨1, "Alice", "Worker", 12000, "1234", true, 0⟩

/-- Example store holding only exAlice, no events. -/
def exDB0 : DB := DB.init [exAlice]

/-- Two clock calls at times 1 and 2. -/
def exTrace2 : List (String × Nat) := [("1234", 1), ("1234", 2)]

/-- Store after exAlice clocked IN at time 5 (open shift). -/
def exDbIn : DB := runTrace exDB0 [("1234", 5)]

/-- Store after exAlice clocked IN at 5 and OUT at 9 (closed shift). -/
def exDbOut : DB := runTrace exDB0 [("1234", 5), ("1234", 9)]

/-- Concrete check of c1_kinds_alternate on a two-call trace. -/
theorem c1_kinds_alternate_witness :
    ((exTrace2.map Prod.snd).Pairwise (· < ·)) ∧
    altFrom .IN (kinds_for (runTrace (DB.init [exAlice]) exTrace2) 1) = true :=
  ⟨by decide, (c1_kinds_alternate [exAlice] exTrace2 (by decide) 1).1.1⟩

/-- Concrete check of c2_side_effects: the first call appends one IN entry
and no shift. -/
theorem c2_side_effects_witness :
    process_clock_action exDB0 "1234" 5 =
      .ok (⟨[exAlice], [⟨1, 1, .IN, 5, 5⟩], [], 2, 1⟩, ⟨1, 1, .IN, 5, 5⟩, .IN) ∧
    (⟨[exAlice], [⟨1, 1, .IN, 5, 5⟩], [], 2, 1⟩ : DB).entries =
      exDB0.entries ++ [⟨1, 1, .IN, 5, 5⟩] :=
  ⟨rfl, (c2_side_effects.1 exDB0 "1234" 5 _ _ _ rfl).1⟩

/-- Concrete check of c3_invalid_code_unchanged on the unregistered code
0000. -/
theorem c3_invalid_code_unchanged_witness :
    (∀ e ∈ exDB0.employees, e.clock_code = "0000" → e.is_active = false) ∧
    process_clock_action exDB0 "0000" 5 = .error .InvalidCode ∧
    stepClock exDB0 ("0000", 5) = exDB0 :=
  ⟨by decide, (c3_invalid_code_unchanged exDB0 "0000" 5 (by decide)).1,
   (c3_invalid_code_unchanged exDB0 "0000" 5 (by decide)).2⟩

/-- Concrete check of c4_deactivation_guard: blocked while clocked IN,
allowed after the OUT. -/
theorem c4_deactivation_guard_witness :
    get_open_shift_for_employee exDbIn 1 = true ∧
    deactivate_employee exDbIn 1 = .error .OpenShiftExists ∧
    get_open_shift_for_employee exDbOut 1 = false ∧
    (∃ db2, deactivate_employee exDbOut 1 = .ok db2) :=
  ⟨rfl, (c4_deactivation_guard exDbIn 1 exAlice rfl rfl).1 rfl, rfl,
   (c4_deactivation_guard exDbOut 1 exAlice rfl rfl).2.1 rfl⟩

/-- Employee with rate 100.00 for the rate-change scenario. -/
def exAlice100 : Employee := ⟨1, "Alice", "Worker", 10000, "1234", true, 0⟩

/-- Store after one full shift at rate 100.00. -/
def exDbShift1 : DB := runTrace (DB.init [exAlice100]) [("1234", 1), ("1234", 2)]

/-- Store after the admin raised the rate to 200.00. -/
def exDbRaised : DB :=
  match update_employee exDbShift1 1 ⟨none, none, some 20000, none⟩ with
  | .ok db2 => db2
  | .error _ => exDbShift1

/-- Store after the employee clocked IN again at the new rate. -/
def exDbIn3 : DB := stepClock exDbRaised ("1234", 3)

/-- The employee record as read at the second shift's close. -/
def exEmpRaised : Employee := ⟨1, "Alice", "Worker", 20000, "1234", true, 0⟩

/-- Concrete check of c5_payment_snapshot: the first shift keeps 100.00,
the second stores 200.00. -/
theorem c5_payment_snapshot_witness :
    process_clock_action exDbIn3 "1234" 4 =
      .ok (stepClock exDbIn3 ("1234", 4), ⟨4, 1, .OUT, 4, 4⟩, .OUT) ∧
    (∃ s, (stepClock exDbIn3 ("1234", 4)).shifts = exDbIn3.shifts ++ [s] ∧
      s.money_gained = exEmpRaised.daily_rate ∧
      s.employee_id = exEmpRaised.id) ∧
    exDbIn3.shifts.map Shift.money_gained = [10000] ∧
    (stepClock exDbIn3 ("1234", 4)).shifts.map Shift.money_gained =
      [10000, 20000] :=
  ⟨rfl,
   c5_payment_snapshot.1 exDbIn3 "1234" 4 (stepClock exDbIn3 ("1234", 4))
     ⟨4, 1, .OUT, 4, 4⟩ exEmpRaised rfl rfl,
   rfl, rfl⟩

/-- Concrete check of c6_invalid_timestamp: clocking OUT at the very
instant of the IN is rejected and nothing is written. -/
theorem c6_invalid_timestamp_witness :
    process_clock_action exDbIn "1234" 5 = .error .InvalidTimestamp ∧
    stepClock exDbIn ("1234", 5) = exDbIn :=
  ⟨(c6_invalid_timestamp exDbIn "1234" 5 exAlice ⟨1, 1, .IN, 5, 5⟩
      rfl rfl rfl (Nat.le_refl 5)).1,
   (c6_invalid_timestamp exDbIn "1234" 5 exAlice ⟨1, 1, .IN, 5, 5⟩
      rfl rfl rfl (Nat.le_refl 5)).2⟩

/-- Concrete check of c7_shift_pairing on a two-call trace. -/
theorem c7_shift_pairing_witness :
    ((exTrace2.map Prod.snd).Pairwise (· < ·)) ∧
    ((runTrace (DB.init [exAlice]) exTrace2).shifts.map
      Shift.clock_in_id).Nodup ∧
    (∀ s ∈ (runTrace (DB.init [exAlice]) exTrace2).shifts,
      ShiftOk (runTrace (DB.init [exAlice]) exTrace2) s) :=
  ⟨by decide, (c7_shift_pairing [exAlice] exTrace2 (by decide)).2.1,
   (c7_shift_pairing [exAlice] exTrace2 (by decide)).1⟩

/-- A deactivated employee holding code 1234. -/
def exDave : Employee := ⟨1, "Dave", "Worker", 10000, "1234", false, 0⟩

/-- An active employee reusing code 1234. -/
def exBob : Employee := ⟨2, "Bob", "Worker", 11000, "1234", true, 0⟩

/-- Directory where the inactive exDave's code was reused by exBob. -/
def exDbReuse : DB := DB.init [exDave, exBob]

/-- Concrete check of c8_code_binds_active: a code held only by a
deactivated employee is rejected; once an active employee reuses it,
resolution binds to the active one. -/
theorem c8_code_binds_active_witness :
    (∀ e ∈ (DB.init [exDave]).employees,
      e.clock_code = "1234" → e.is_active = false) ∧
    process_clock_action (DB.init [exDave]) "1234" 1 = .error .InvalidCode ∧
    get_active_employee exDbReuse "1234" = some exBob :=
  ⟨by decide,
   (c8_code_binds_active (DB.init [exDave]) "1234" 1).1 (by decide),
   (c8_code_binds_active exDbReuse "1234" 1).2.2 exBob (by decide) rfl rfl
     (by decide)⟩

/-- Update payload changing only the clock code to 5678. -/
def exUpd : EmployeeUpdate := ⟨none, none, none, some "5678"⟩

/-- Concrete check of c9_code_change_guard: the code change is rejected
during the open shift and accepted after the OUT. -/
theorem c9_code_change_guard_witness :
    get_open_shift_for_employee exDbIn 1 = true ∧
    update_employee exDbIn 1 exUpd = .error .OpenShiftExists ∧
    (∃ db2, update_employee (stepClock exDbIn ("1234", 9)) 1 exUpd = .ok db2) :=
  ⟨rfl,
   ((c9_code_change_guard exDbIn 1 exAlice exUpd "5678" rfl rfl (by decide)
      (by decide) (fun r hr => Option.noConfusion hr) rfl).1).1,
   (c9_code_change_guard exDbIn 1 exAlice exUpd "5678" rfl rfl (by decide)
      (by decide) (fun r hr => Option.noConfusion hr) rfl).2
     "1234" 9 (stepClock exDbIn ("1234", 9)) ⟨2, 1, .OUT, 9, 9⟩ rfl rfl
     (by decide)⟩

/-- Zero-rate employee allowed at the storage layer. -/
def exZed : Employee := ⟨3, "Zed", "Worker", 0, "4321", true, 0⟩

/-- Store where the zero-rate employee clocked IN at 5. -/
def exDbZeroIn : DB := runTrace (DB.init [exZed]) [("4321", 5)]

/-- Concrete check of c10_positive_rate_validation: rate 0 fails the form
and creation, yet a stored shift payment of 0 passes the shift layer. -/
theorem c10_positive_rate_validation_witness :
    validateForm ⟨"Ann", "Worker", some 0, "1234"⟩ = false ∧
    create_employee exDbZeroIn ⟨"Ann", "Worker", 0, "5678"⟩ 2 9 =
      .error .ValidationError ∧
    (∃ db' te, process_clock_action exDbZeroIn "4321" 9 = .ok (db', te, .OUT) ∧
      ∃ s, db'.shifts = exDbZeroIn.shifts ++ [s] ∧ s.money_gained = 0) :=
  ⟨(c10_positive_rate_validation ⟨"Ann", "Worker", some 0, "1234"⟩ 0
      exDbZeroIn ⟨"Ann", "Worker", 0, "5678"⟩ 2 9 ⟨none, none, some 0, none⟩
      1).1 rfl (Int.le_refl 0),
   (c10_positive_rate_validation ⟨"Ann", "Worker", some 0, "1234"⟩ 0
      exDbZeroIn ⟨"Ann", "Worker", 0, "5678"⟩ 2 9 ⟨none, none, some 0, none⟩
      1).2.2.1 (Int.le_refl 0),
   (c10_positive_rate_validation ⟨"Ann", "Worker", some 0, "1234"⟩ 0
      exDbZeroIn ⟨"Ann", "Worker", 0, "5678"⟩ 2 9 ⟨none, none, some 0, none⟩
      1).2.2.2.2 "4321" exZed ⟨1, 3, .IN, 5, 5⟩ rfl rfl rfl rfl
     (by decide)⟩

end WorkClock
